import Mathlib

/-!
Shallow embedding of the SQLite-backed key-value store in
`src/sqlite/mod.rs` (KvSqlite): the `items`, `items_tags` and
`items_locks` tables together with the operations `fetch`, `count`,
`scan_start`/`scan_next`, `update` and `create_lock`.

Encryption is taken on the no-key path (`key = None`), under which
category/name/value are stored as the raw bytes supplied by the caller;
none of the verified properties depend on the encryption capability.
Times (`datetime('now')`, expiry timestamps, `Instant`) are modelled as
integers.
-/

namespace Askar

/-- SQLite storage classes relevant to the embedded queries: a column
value is NULL, an INTEGER, or a BLOB.  Category, name and value columns
hold blobs (byte strings, modelled as `List Nat`); row ids are integers. -/
inductive SqlVal where
  | null : SqlVal
  | int : Int → SqlVal
  | blob : List Nat → SqlVal
deriving DecidableEq, Repr

/-- SQLite `=` comparison between two stored values: values of different
storage classes are never equal (SQLite orders NULL < INTEGER < TEXT <
BLOB and only compares within a class), and NULL is not equal to NULL. -/
def sqlEq : SqlVal → SqlVal → Bool
  | SqlVal.int a, SqlVal.int b => a == b
  | SqlVal.blob a, SqlVal.blob b => a == b
  | _, _ => false

/-- A row of the `items` table: `id INTEGER PRIMARY KEY`,
`store_key_id`, `category`, `name`, `value`, `expiry DATETIME NULL`,
with the unique index `ux_items_uniq (store_key_id, category, name)`. -/
structure ItemRow where
  id : Nat
  store_key_id : Nat
  category : List Nat
  name : List Nat
  value : SqlVal
  expiry : Option Int
deriving DecidableEq, Repr

/-- A row of the `items_tags` table: `item_id`, `name`, `value`,
`plaintext`, with `PRIMARY KEY (name, item_id, plaintext)`. -/
structure TagRow where
  item_id : Nat
  name : List Nat
  value : List Nat
  plaintext : Bool
deriving DecidableEq, Repr

/-- A row of the `items_locks` table: `id INTEGER PRIMARY KEY`,
`expiry DATETIME NOT NULL`. -/
structure LockRow where
  id : Int
  expiry : Int
deriving DecidableEq, Repr

/-- The database state: the three tables touched by the embedded
operations, plus the next rowid the `items` table will assign. -/
structure Db where
  items : List ItemRow
  items_tags : List TagRow
  items_locks : List LockRow
  next_rowid : Nat
deriving DecidableEq, Repr

/-- The error taxonomy visible to the claims: a backend (database)
failure such as a constraint violation, and the Timeout condition raised
by `scan_next` for an unknown token. -/
inductive KvError where
  | Backend : KvError
  | Timeout : KvError
deriving DecidableEq, Repr

/-- The expiry predicate appearing in COUNT_QUERY, FETCH_QUERY and
SCAN_QUERY: `expiry IS NULL OR expiry > datetime('now')`. -/
def liveAt (now : Int) (r : ItemRow) : Bool :=
  match r.expiry with
  | none => true
  | some e => now < e

/-- The row predicate of FETCH_QUERY:
`store_key_id = ?1 AND category = ?2 AND name = ?3` plus the expiry
predicate. -/
def fetchMatch (now : Int) (kid : Nat) (cat name : List Nat) (r : ItemRow) : Bool :=
  r.store_key_id == kid && r.category == cat && r.name == name && liveAt now r

/-- FETCH_QUERY: `SELECT id, value FROM items ...` returning the unique
matching live row, if any. -/
def fetchRow (db : Db) (now : Int) (kid : Nat) (cat name : List Nat) : Option ItemRow :=
  db.items.find? (fetchMatch now kid cat name)

/-- The row predicate of COUNT_QUERY and SCAN_QUERY:
`store_key_id = ?1 AND category = ?2` plus the expiry predicate. -/
def scanMatch (now : Int) (kid : Nat) (cat : List Nat) (r : ItemRow) : Bool :=
  r.store_key_id == kid && r.category == cat && liveAt now r

/-- SCAN_QUERY with an empty tag filter: the live rows of the category.
Modelled from the spec: `extend_query` (in `db_utils`, not under `src/`)
leaves the base query unchanged when the filter tree is empty and no
offset or limit is given. -/
def scanRows (db : Db) (now : Int) (kid : Nat) (cat : List Nat) : List ItemRow :=
  db.items.filter (scanMatch now kid cat)

/-- COUNT_QUERY with an empty tag filter: `SELECT COUNT(*) FROM items`
over the live rows of the category. -/
def countItems (db : Db) (now : Int) (kid : Nat) (cat : List Nat) : Nat :=
  (db.items.filter (scanMatch now kid cat)).length

/-- Modelled from the spec: `expiry_timestamp` (in `db_utils`, not under
`src/`) converts a relative `expire_ms` offset into an absolute expiry
timestamp. -/
def expiry_timestamp (now : Int) (ms : Int) : Int :=
  now + ms

/-- One entry of an `update` batch after the per-entry key resolution
and encryption prologue: the `(key_id, enc_entry, enc_tags, expire_ms)`
tuple pushed onto `updates`. -/
structure UpdateItem where
  key_id : Nat
  category : List Nat
  name : List Nat
  value : List Nat
  tags : List (List Nat × List Nat × Bool)
  expire_ms : Option Int
deriving DecidableEq, Repr

/-- INSERT into `items_tags`, enforcing its primary key
`(name, item_id, plaintext)`: a duplicate is a constraint violation. -/
def insertTagRow (db : Db) (t : TagRow) : Except KvError Db :=
  if db.items_tags.any (fun u => u.name == t.name && u.item_id == t.item_id && u.plaintext == t.plaintext) then
    Except.error KvError.Backend
  else
    Except.ok { db with items_tags := db.items_tags ++ [t] }

/-- The tag-insertion loop of `update`: one
`INSERT INTO items_tags (item_id, name, value, plaintext)` per tag. -/
def insertTags (db : Db) (rowId : Nat) : List (List Nat × List Nat × Bool) → Except KvError Db
  | [] => Except.ok db
  | t :: rest =>
    match insertTagRow db ⟨rowId, t.1, t.2.1, t.2.2⟩ with
    | Except.error e => Except.error e
    | Except.ok db2 => insertTags db2 rowId rest

/-- INSERT_QUERY into `items`, enforcing the unique index
`ux_items_uniq (store_key_id, category, name)`; returns the new rowid
(`last_insert_rowid`). -/
def insertItem (db : Db) (kid : Nat) (cat name value : List Nat) (expiry : Option Int) :
    Except KvError (Db × Nat) :=
  if db.items.any (fun r => r.store_key_id == kid && r.category == cat && r.name == name) then
    Except.error KvError.Backend
  else
    let rid := db.next_rowid
    Except.ok
      ({ db with
          items := db.items ++ [⟨rid, kid, cat, name, SqlVal.blob value, expiry⟩],
          next_rowid := rid + 1 }, rid)

/-- The statement `UPDATE items SET value=?1 WHERE id=?2` exactly as the
source binds it: the first bound parameter is `row_id` and the second is
the entry's value blob, so the statement sets `value` to the integer
`row_id` on every row whose integer `id` equals the value blob. -/
def overwriteValue (db : Db) (rowId : Nat) (value : List Nat) : Db :=
  { db with
      items := db.items.map (fun r =>
        if sqlEq (SqlVal.int (Int.ofNat r.id)) (SqlVal.blob value) then
          { r with value := SqlVal.int (Int.ofNat rowId) }
        else r) }

/-- DELETE FROM `items_tags` WHERE `item_id = ?1`. -/
def deleteTags (db : Db) (rowId : Nat) : Db :=
  { db with items_tags := db.items_tags.filter (fun t => t.item_id != rowId) }

/-- The per-entry body of the `update` transaction: probe with
FETCH_QUERY; if a row exists, run the value UPDATE and replace its tags
(delete then re-insert); otherwise INSERT a fresh row with the entry's
expiry converted by `expiry_timestamp`, then insert its tags. -/
def applyUpdate (now : Int) (db : Db) (u : UpdateItem) : Except KvError Db :=
  match fetchRow db now u.key_id u.category u.name with
  | some row =>
    let db2 := overwriteValue db row.id u.value
    let db3 := deleteTags db2 row.id
    insertTags db3 row.id u.tags
  | none =>
    match insertItem db u.key_id u.category u.name u.value (u.expire_ms.map (expiry_timestamp now)) with
    | Except.error e => Except.error e
    | Except.ok (db2, rid) => insertTags db2 rid u.tags

/-- The body of the `update` transaction over the whole batch. -/
def updateTxn (now : Int) (db : Db) : List UpdateItem → Except KvError Db
  | [] => Except.ok db
  | u :: rest =>
    match applyUpdate now db u with
    | Except.error e => Except.error e
    | Except.ok db2 => updateTxn now db2 rest

/-- `KvStore::update`: run the batch inside one transaction; commit the
new state on success, roll back to the original state on any failure. -/
def update (now : Int) (db : Db) (entries : List UpdateItem) : Db × Except KvError Unit :=
  match updateTxn now db entries with
  | Except.ok db2 => (db2, Except.ok ())
  | Except.error e => (db, Except.error e)

/-- An entry yielded by a scan page: decrypted name and value of a row
(category is the caller's raw category). -/
structure KvEntry where
  category : List Nat
  name : List Nat
  value : SqlVal
deriving DecidableEq, Repr

/-- The scans table: the identifier-keyed map of open scan iterators.
Each iterator is represented by the rows its underlying query stream has
not yet delivered; the stream of the generator in `scan_start` yields
full pages of PAGE_SIZE rows and one final partial page if any rows
remain. -/
abbrev ScanTable := List (Nat × List KvEntry)

/-- Lookup in the scans map. -/
def scanLookup (tbl : ScanTable) (tok : Nat) : Option (List KvEntry) :=
  (tbl.find? (fun p => p.1 == tok)).map Prod.snd

/-- Removal from the scans map (`self.scans.lock().await.remove`). -/
def scanRemove (tbl : ScanTable) (tok : Nat) : ScanTable :=
  tbl.filter (fun p => p.1 != tok)

/-- Insertion into the scans map (`self.scans.lock().await.insert`). -/
def scanInsert (tbl : ScanTable) (tok : Nat) (rows : List KvEntry) : ScanTable :=
  scanRemove tbl tok ++ [(tok, rows)]

/-- The entries produced by the query stream of `scan_start`: each live
row of the category, its name and value decrypted (identity on the
no-key path), tagged with the caller's category. -/
def scanEntries (db : Db) (now : Int) (kid : Nat) (cat : List Nat) : List KvEntry :=
  (scanRows db now kid cat).map (fun r => ⟨cat, r.name, r.value⟩)

/-- `KvStore::scan_start`: build the lazy filtered query stream and
register it in the scans table under a fresh token (token generation by
`ScanToken::next` is modelled by passing the fresh token in). -/
def scan_start (db : Db) (now : Int) (kid : Nat) (cat : List Nat)
    (tbl : ScanTable) (tok : Nat) : ScanTable :=
  scanInsert tbl tok (scanEntries db now kid cat)

/-- `KvStore::scan_next`, parameterized by the fixed page size `ps`
(PAGE_SIZE lives in `db_utils`, outside `src/`; the spec fixes only that
it is a constant): remove the iterator — an unknown token is the Timeout
condition — then pull the next page; re-insert the iterator under the
same token exactly when the page has exactly `ps` rows, and report the
continuation token to the caller in that case only. An exhausted stream
yields an empty batch and no token. -/
def scan_next (ps : Nat) (tbl : ScanTable) (tok : Nat) :
    Except KvError (ScanTable × List KvEntry × Option Nat) :=
  match scanLookup tbl tok with
  | none => Except.error KvError.Timeout
  | some rows =>
    let tbl2 := scanRemove tbl tok
    match rows with
    | [] => Except.ok (tbl2, [], none)
    | _ :: _ =>
      let page := rows.take ps
      if page.length == ps then
        Except.ok (scanInsert tbl2 tok (rows.drop ps), page, some tok)
      else
        Except.ok (tbl2, page, none)

/-- The caller-side paging loop over `scan_next`: call repeatedly from
one token, concatenating the pages, until no continuation token is
returned.  `fuel` bounds the number of calls. -/
def drainScan (ps : Nat) : Nat → ScanTable → Nat → Except KvError (List KvEntry)
  | 0, _, _ => Except.error KvError.Timeout
  | fuel + 1, tbl, tok =>
    match scan_next ps tbl tok with
    | Except.error e => Except.error e
    | Except.ok (_, page, none) => Except.ok page
    | Except.ok (tbl2, page, some tok2) =>
      match drainScan ps fuel tbl2 tok2 with
      | Except.error e => Except.error e
      | Except.ok rest => Except.ok (page ++ rest)

/-- The lock lease duration: `LOCK_EXPIRY = 120000` (2 minutes). -/
def LOCK_EXPIRY : Int := 120000

/-- The polling interval of the lock-acquisition loop: `interval = 10`
milliseconds. -/
def lockInterval : Int := 10

/-- The conditional upsert of `create_lock`:
`INSERT INTO items_locks (id, expiry) VALUES (?1, ?2) ON CONFLICT (id)
DO UPDATE SET expiry = excluded.expiry WHERE expiry <= datetime('now')`,
with `?2 = expiry_timestamp(LOCK_EXPIRY)`.  Returns the new table and
`rows_affected`: 1 for a fresh insert or an expired-lease takeover, 0
when the existing lease is still live. -/
def lockUpsert (locks : List LockRow) (hash : Int) (now : Int) : List LockRow × Nat :=
  match locks.find? (fun r => r.id == hash) with
  | none => (locks ++ [⟨hash, expiry_timestamp now LOCK_EXPIRY⟩], 1)
  | some r =>
    if r.expiry ≤ now then
      (locks.map (fun l => if l.id == hash then ⟨l.id, expiry_timestamp now LOCK_EXPIRY⟩ else l), 1)
    else
      (locks, 0)

/-- Outcome of the lock-acquisition loop: the lock was acquired (with
the resulting `items_locks` table), the caller's deadline passed and the
call returns the successful "not acquired" result `Ok(None)`, or the
bounding fuel ran out while the loop was still polling. -/
inductive LockResult where
  | acquired : List LockRow → LockResult
  | notAcquired : LockResult
  | outOfFuel : LockResult
deriving DecidableEq, Repr

/-- The acquisition loop of `create_lock`: attempt the conditional
upsert; break on success; otherwise return `Ok(None)` when the deadline
(if any) has passed (`Instant::now().checked_duration_since(exp)` is
`Some` exactly when now ≥ exp), else sleep one interval and retry. -/
def lockLoop (hash : Int) (deadline : Option Int) : Nat → List LockRow → Int → LockResult
  | 0, _, _ => LockResult.outOfFuel
  | fuel + 1, locks, t =>
    match lockUpsert locks hash t with
    | (locks2, n) =>
      if n > 0 then LockResult.acquired locks2
      else if (deadline.map (fun d => decide (d ≤ t))).getD false then LockResult.notAcquired
      else lockLoop hash deadline fuel locks2 (t + lockInterval)

/-- The acquisition phase of `KvStore::create_lock`: the deadline is
computed once, up front, as
`Instant::now() + max 0 (acquire_timeout_ms - interval)` when a timeout
is supplied, and the loop is entered. -/
def create_lock (hash : Int) (acquire_timeout_ms : Option Int) (fuel : Nat)
    (locks : List LockRow) (t0 : Int) : LockResult :=
  lockLoop hash (acquire_timeout_ms.map (fun ms => t0 + max 0 (ms - lockInterval))) fuel locks t0

/-- Insertion of one row into the `items` table, used to state frame
properties of the read path. -/
def addItem (db : Db) (r : ItemRow) : Db :=
  { db with items := db.items ++ [r] }

/-- The stored tag rows of one item (`items_tags WHERE item_id = ?1`). -/
def tagsOf (db : Db) (rid : Nat) : List TagRow :=
  db.items_tags.filter (fun t => t.item_id == rid)

theorem insertTags_spec (tags : List (List Nat × List Nat × Bool)) :
    ∀ (db db2 : Db) (rid : Nat), insertTags db rid tags = Except.ok db2 →
      db2 = { db with
        items_tags := db.items_tags ++ tags.map (fun t => TagRow.mk rid t.1 t.2.1 t.2.2) } := by
  induction tags with
  | nil =>
    intro db db2 rid h
    simp only [insertTags] at h
    cases h
    simp
  | cons t rest ih =>
    intro db db2 rid h
    simp only [insertTags, insertTagRow] at h
    by_cases hc :
        (db.items_tags.any fun u => u.name == t.1 && u.item_id == rid && u.plaintext == t.2.2)
          = true
    · simp [hc] at h
    · simp only [hc, ite_false, if_neg, Bool.false_eq_true, not_false_eq_true] at h
      have h2 := ih _ _ _ h
      subst h2
      simp

theorem liveAt_eq_false_of_past (now : Int) (r : ItemRow) (e : Int)
    (hexp : r.expiry = some e) (hpast : e ≤ now) : liveAt now r = false := by
  simp [liveAt, hexp]
  omega

/-- C2: every `update` call runs its whole batch inside a single
transaction: the call either commits the state produced by applying
every entry of the batch in order, or fails and leaves the stored state
exactly as it was (full rollback). -/
theorem update_batch_atomic (now : Int) (db : Db) (entries : List UpdateItem) :
    (∃ db2, updateTxn now db entries = Except.ok db2 ∧
      update now db entries = (db2, Except.ok ())) ∨
    (∃ e, updateTxn now db entries = Except.error e ∧
      update now db entries = (db, Except.error e)) := by
  cases h : updateTxn now db entries with
  | ok db2 => exact Or.inl ⟨db2, rfl, by simp [update, h]⟩
  | error e => exact Or.inr ⟨e, rfl, by simp [update, h]⟩

/-- C1: two successive successful `update` calls for the same
(key id, category, name) do NOT leave the second value in the store: the
overwrite statement `UPDATE items SET value=?1 WHERE id=?2` is bound
with `row_id` first and the value blob second, so it matches no row and
a subsequent fetch still returns the value of the first write. -/
theorem update_second_write_lost :
    (update 0 ((update 0 ⟨[], [], [], 1⟩ [⟨1, [3], [4], [1, 2, 3], [], none⟩]).1)
        [⟨1, [3], [4], [9], [], none⟩]).2 = Except.ok () ∧
    (fetchRow ((update 0 ((update 0 ⟨[], [], [], 1⟩ [⟨1, [3], [4], [1, 2, 3], [], none⟩]).1)
        [⟨1, [3], [4], [9], [], none⟩]).1) 0 1 [3] [4]).map ItemRow.value
      = some (SqlVal.blob [1, 2, 3]) :=
  ⟨rfl, rfl⟩

/-- C4: an entry whose expiry timestamp is at or before the current time
is invisible to the read path with no grace period: adding such a row to
the items table changes the result of no fetch, no count and no scan,
because the expiry predicate is part of each query. -/
theorem expired_row_invisible (db : Db) (now : Int) (r : ItemRow) (e : Int)
    (hexp : r.expiry = some e) (hpast : e ≤ now) :
    (∀ kid cat name, fetchRow (addItem db r) now kid cat name = fetchRow db now kid cat name) ∧
    (∀ kid cat, countItems (addItem db r) now kid cat = countItems db now kid cat) ∧
    (∀ kid cat, scanEntries (addItem db r) now kid cat = scanEntries db now kid cat) := by
  have hlive := liveAt_eq_false_of_past now r e hexp hpast
  refine ⟨fun kid cat name => ?_, fun kid cat => ?_, fun kid cat => ?_⟩
  · simp [fetchRow, addItem, List.find?_append, fetchMatch, hlive]
  · simp [countItems, addItem, List.filter_append, scanMatch, hlive]
  · simp [scanEntries, scanRows, addItem, List.filter_append, scanMatch, hlive]

/-- Witness for C4 at a concrete store: a row that expired at time 0 is
not returned by a fetch at time 0. -/
theorem expired_row_invisible_witness :
    fetchRow (addItem ⟨[], [], [], 1⟩ ⟨1, 1, [1], [2], SqlVal.blob [7], some 0⟩) 0 1 [1] [2]
      = fetchRow ⟨[], [], [], 1⟩ 0 1 [1] [2] :=
  (expired_row_invisible ⟨[], [], [], 1⟩ 0 ⟨1, 1, [1], [2], SqlVal.blob [7], some 0⟩ 0
    rfl (by decide)).1 1 [1] [2]

theorem scanLookup_scanRemove (tbl : ScanTable) (tok : Nat) :
    scanLookup (scanRemove tbl tok) tok = none := by
  have hfind : List.find? (fun p => p.1 == tok) (scanRemove tbl tok) = none := by
    rw [List.find?_eq_none]
    intro x hx
    have hmem := List.mem_filter.mp hx
    simpa using hmem.2
  simp [scanLookup, hfind]

/-- C6: calling `scan_next` with a token that is absent from the scans
table fails with the Timeout condition; moreover, a call that returns no
continuation token removes the token from the table, so a further call
with the same token also fails with Timeout rather than yielding a
silent empty result. -/
theorem scan_next_unknown_token (ps : Nat) (tbl : ScanTable) (tok : Nat)
    (h : scanLookup tbl tok = none) :
    scan_next ps tbl tok = Except.error KvError.Timeout ∧
    (∀ tbl0 tbl2 page, scan_next ps tbl0 tok = Except.ok (tbl2, page, none) →
      scan_next ps tbl2 tok = Except.error KvError.Timeout) := by
  constructor
  · simp [scan_next, h]
  · intro tbl0 tbl2 page hok
    have htbl2 : scanLookup tbl2 tok = none := by
      simp only [scan_next] at hok
      cases hlk : scanLookup tbl0 tok with
      | none => simp [hlk] at hok
      | some rows =>
        cases rows with
        | nil =>
          simp [hlk] at hok
          rw [← hok.1]
          exact scanLookup_scanRemove tbl0 tok
        | cons r rs =>
          simp only [hlk] at hok
          split at hok
          · simp at hok
          · simp only [Except.ok.injEq, Prod.mk.injEq] at hok
            rw [← hok.1]
            exact scanLookup_scanRemove tbl0 tok
    simp [scan_next, htbl2]

/-- Witness for C6: a `scan_next` on an empty scans table fails with
Timeout. -/
theorem scan_next_unknown_token_witness :
    scan_next 2 ([] : ScanTable) 42 = Except.error KvError.Timeout :=
  (scan_next_unknown_token 2 [] 42 rfl).1

theorem find?_lock_update (locks : List LockRow) (hash : Int) (v : Int) (r : LockRow)
    (h : List.find? (fun l => l.id == hash) locks = some r) :
    List.find? (fun l => l.id == hash)
        (locks.map (fun l => if l.id == hash then LockRow.mk l.id v else l))
      = some ⟨hash, v⟩ := by
  induction locks with
  | nil => simp at h
  | cons a l ih =>
    rw [List.map_cons]
    by_cases ha : (a.id == hash) = true
    · have haeq : a.id = hash := by simpa using ha
      rw [if_pos ha,
        @List.find?_cons_of_pos LockRow (fun l => l.id == hash) (LockRow.mk a.id v) _ ha]
      simp [haeq]
    · rw [if_neg ha, @List.find?_cons_of_neg LockRow (fun l => l.id == hash) a _ ha]
      rw [@List.find?_cons_of_neg LockRow (fun l => l.id == hash) a l ha] at h
      exact ih h

/-- C8: the conditional upsert of `create_lock` is a compare-and-swap on
the lease expiry: it reports a row affected exactly when there is no
lock row for the hash or the stored expiry is at or before the current
time; when the stored lease is still live it is a no-op leaving the
table unchanged, and on an expired-lease takeover the row's expiry
becomes the fresh lease expiry. -/
theorem lock_upsert_cas (locks : List LockRow) (hash : Int) (now : Int) :
    ((lockUpsert locks hash now).2 = 1 ↔
      ∀ r, List.find? (fun l => l.id == hash) locks = some r → r.expiry ≤ now) ∧
    ((lockUpsert locks hash now).2 = 0 → (lockUpsert locks hash now).1 = locks) ∧
    (∀ r, List.find? (fun l => l.id == hash) locks = some r → r.expiry ≤ now →
      List.find? (fun l => l.id == hash) (lockUpsert locks hash now).1
        = some ⟨hash, expiry_timestamp now LOCK_EXPIRY⟩) := by
  refine ⟨?_, ?_, ?_⟩
  · cases hf : List.find? (fun l => l.id == hash) locks with
    | none => simp [lockUpsert, hf]
    | some r =>
      by_cases hle : r.expiry ≤ now
      · simp [lockUpsert, hf, hle]
      · simp only [lockUpsert, hf, hle, ite_false, if_neg, not_false_eq_true]
        constructor
        · intro h0
          cases h0
        · intro hall
          exact absurd (hall r rfl) hle
  · intro h0
    cases hf : List.find? (fun l => l.id == hash) locks with
    | none => simp [lockUpsert, hf] at h0
    | some r =>
      by_cases hle : r.expiry ≤ now
      · simp [lockUpsert, hf, hle] at h0
      · simp [lockUpsert, hf, hle]
  · intro r hf hle
    simp only [lockUpsert, hf, hle, ite_true, if_pos]
    exact find?_lock_update locks hash (expiry_timestamp now LOCK_EXPIRY) r hf

/-- Witness for C8: a lease that expired at time 100 is taken over at
time 200 and the lock row's expiry becomes the fresh lease expiry. -/
theorem lock_upsert_cas_witness :
    List.find? (fun l => l.id == 7) (lockUpsert [⟨7, 100⟩] 7 200).1 = some ⟨7, 120200⟩ :=
  (lock_upsert_cas [⟨7, 100⟩] 7 200).2.2 ⟨7, 100⟩ rfl (by decide)

theorem lockLoop_no_deadline (hash : Int) (fuel : Nat) :
    ∀ (locks : List LockRow) (t : Int),
      (∃ locks2, lockLoop hash none fuel locks t = LockResult.acquired locks2) ∨
      lockLoop hash none fuel locks t = LockResult.outOfFuel := by
  induction fuel with
  | zero => intro locks t; exact Or.inr rfl
  | succ f ih =>
    intro locks t
    simp only [lockLoop]
    by_cases hn : (lockUpsert locks hash t).2 > 0
    · exact Or.inl ⟨(lockUpsert locks hash t).1, by simp [hn]⟩
    · simpa [hn, Option.map] using ih (lockUpsert locks hash t).1 (t + lockInterval)

/-- C9: `create_lock` with no `acquire_timeout_ms` never produces the
"not acquired" result: however long the polling loop runs, it either
acquires the lock or is still polling; with no deadline it does not give
up. -/
theorem create_lock_no_timeout_never_not_acquired (hash : Int) (fuel : Nat)
    (locks : List LockRow) (t0 : Int) :
    (∃ locks2, create_lock hash none fuel locks t0 = LockResult.acquired locks2) ∨
    create_lock hash none fuel locks t0 = LockResult.outOfFuel := by
  simpa [create_lock, Option.map] using lockLoop_no_deadline hash fuel locks t0

theorem update_single_ok (now : Int) (db db2 : Db) (u : UpdateItem)
    (hok : update now db [u] = (db2, Except.ok ())) :
    applyUpdate now db u = Except.ok db2 := by
  have ht : updateTxn now db [u] = Except.ok db2 := by
    cases h3 : updateTxn now db [u] with
    | ok dbx =>
      have hdx : dbx = db2 := by
        have hfst := congrArg Prod.fst hok
        simpa [update, h3] using hfst
      rw [hdx]
    | error e => simp [update, h3] at hok
  cases h4 : applyUpdate now db u with
  | ok dbx =>
    simp only [updateTxn, h4] at ht
    exact congrArg Except.ok (by simpa using ht)
  | error e => simp only [updateTxn, h4] at ht; cases ht

theorem tagsOf_after_replace (ts0 : List TagRow) (rid : Nat) (new : List TagRow)
    (hnew : ∀ t ∈ new, t.item_id = rid) :
    List.filter (fun t => t.item_id == rid)
        (List.filter (fun t => t.item_id != rid) ts0 ++ new) = new := by
  rw [List.filter_append]
  have h1 : List.filter (fun t => t.item_id == rid)
      (List.filter (fun t => t.item_id != rid) ts0) = [] := by
    rw [List.filter_eq_nil_iff]
    intro a ha
    have hmem := (List.mem_filter.mp ha).2
    simpa using hmem
  have h2 : List.filter (fun t => t.item_id == rid) new = new := by
    rw [List.filter_eq_self]
    intro a ha
    simpa using hnew a ha
  rw [h1, h2, List.nil_append]

theorem overwriteValue_eq_self (db : Db) (rid : Nat) (v : List Nat) :
    overwriteValue db rid v = db := by
  simp [overwriteValue, sqlEq]

/-- C3: when `update` finds an existing live row for the entry's
(key id, category, name) and the call succeeds, the stored tag set of
that row afterwards is exactly the tag set of the new entry — the old
tags are deleted in bulk and the new tags inserted, with no merge. -/
theorem update_replaces_tag_set (now : Int) (db : Db) (u : UpdateItem) (row : ItemRow)
    (db2 : Db) (hrow : fetchRow db now u.key_id u.category u.name = some row)
    (hok : update now db [u] = (db2, Except.ok ())) :
    tagsOf db2 row.id = u.tags.map (fun t => TagRow.mk row.id t.1 t.2.1 t.2.2) := by
  have ha := update_single_ok now db db2 u hok
  simp only [applyUpdate, hrow] at ha
  have hdb2 := insertTags_spec u.tags _ _ _ ha
  subst hdb2
  simp only [tagsOf, deleteTags, overwriteValue_eq_self]
  exact tagsOf_after_replace db.items_tags row.id _
    (by intro t htm; obtain ⟨s, hs, rfl⟩ := List.mem_map.mp htm; rfl)

/-- Witness for C3: overwriting an entry that had the tag ([9],[9])
with an entry carrying the single tag ([2],[2]) leaves exactly the tag
([2],[2]) stored for the row. -/
theorem update_replaces_tag_set_witness :
    tagsOf (update 0 ⟨[⟨1, 1, [3], [4], SqlVal.blob [5], none⟩], [⟨1, [9], [9], true⟩], [], 2⟩
        [⟨1, [3], [4], [7], [([2], [2], true)], none⟩]).1 1
      = [⟨1, [2], [2], true⟩] :=
  update_replaces_tag_set 0
    ⟨[⟨1, 1, [3], [4], SqlVal.blob [5], none⟩], [⟨1, [9], [9], true⟩], [], 2⟩
    ⟨1, [3], [4], [7], [([2], [2], true)], none⟩
    ⟨1, 1, [3], [4], SqlVal.blob [5], none⟩ _ rfl rfl

/-- C10: a successful `update` of a single entry never changes the
expiry of any stored row when a live row for the entry's key already
exists — the overwrite path touches no expiry column — and the entry's
`expire_ms` (converted to an absolute timestamp) is applied exactly on
the insert path for an absent entry. -/
theorem update_existing_preserves_expiry (now : Int) (db : Db) (u : UpdateItem) :
    (∀ row db2, fetchRow db now u.key_id u.category u.name = some row →
      update now db [u] = (db2, Except.ok ()) →
      db2.items.map (fun r => (r.id, r.expiry)) = db.items.map (fun r => (r.id, r.expiry))) ∧
    (∀ db2, fetchRow db now u.key_id u.category u.name = none →
      update now db [u] = (db2, Except.ok ()) →
      db2.items = db.items ++
        [⟨db.next_rowid, u.key_id, u.category, u.name, SqlVal.blob u.value,
          u.expire_ms.map (expiry_timestamp now)⟩]) := by
  constructor
  · intro row db2 hrow hok
    have ha := update_single_ok now db db2 u hok
    simp only [applyUpdate, hrow] at ha
    have hdb2 := insertTags_spec u.tags _ _ _ ha
    subst hdb2
    simp only [deleteTags, overwriteValue_eq_self]
  · intro db2 hrow hok
    have ha := update_single_ok now db db2 u hok
    simp only [applyUpdate, hrow] at ha
    cases hany : db.items.any
        (fun r => r.store_key_id == u.key_id && r.category == u.category && r.name == u.name) with
    | true => simp [insertItem, hany] at ha
    | false =>
      simp only [insertItem, hany, Bool.false_eq_true, if_neg, not_false_eq_true] at ha
      have hdb2 := insertTags_spec u.tags _ _ _ ha
      subst hdb2
      simp

/-- Witness for C10: updating the existing row (expiry 100) with an
entry carrying `expire_ms = 5` leaves the stored (id, expiry) pairs
unchanged. -/
theorem update_existing_preserves_expiry_witness :
    (update 0 ⟨[⟨1, 1, [3], [4], SqlVal.blob [5], some 100⟩], [], [], 2⟩
        [⟨1, [3], [4], [7], [], some 5⟩]).1.items.map (fun r => (r.id, r.expiry))
      = (⟨[⟨1, 1, [3], [4], SqlVal.blob [5], some 100⟩], [], [], 2⟩ : Db).items.map
          (fun r => (r.id, r.expiry)) :=
  (update_existing_preserves_expiry 0
      ⟨[⟨1, 1, [3], [4], SqlVal.blob [5], some 100⟩], [], [], 2⟩
      ⟨1, [3], [4], [7], [], some 5⟩).1
    ⟨1, 1, [3], [4], SqlVal.blob [5], some 100⟩ _ rfl rfl

theorem scan_next_single (ps : Nat) (tok : Nat) (rows : List KvEntry) :
    scan_next ps [(tok, rows)] tok =
      match rows with
      | [] => Except.ok ([], [], none)
      | _ :: _ =>
        if (rows.take ps).length == ps then
          Except.ok ([(tok, rows.drop ps)], rows.take ps, some tok)
        else
          Except.ok ([], rows.take ps, none) := by
  have hlk : scanLookup [(tok, rows)] tok = some rows := by simp [scanLookup]
  have hrm : scanRemove [(tok, rows)] tok = [] := by simp [scanRemove]
  cases rows with
  | nil => simp [scan_next, hlk, hrm]
  | cons r rs => simp [scan_next, hlk, hrm, scanInsert, scanRemove]

theorem drainScan_single (ps : Nat) (hps : 0 < ps) :
    ∀ (fuel : Nat) (rows : List KvEntry) (tok : Nat), rows.length < fuel →
      drainScan ps fuel [(tok, rows)] tok = Except.ok rows := by
  intro fuel
  induction fuel with
  | zero => intro rows tok h; exact absurd h (Nat.not_lt_zero _)
  | succ f ih =>
    intro rows tok h
    cases rows with
    | nil => simp [drainScan, scan_next_single]
    | cons r rs =>
      by_cases hc : (((r :: rs).take ps).length == ps) = true
      · have hle : ps ≤ (r :: rs).length := by
          have := beq_iff_eq.mp hc
          rw [List.length_take] at this
          omega
        have hrec := ih ((r :: rs).drop ps) tok (by simp; simp at h; omega)
        simp only [drainScan, scan_next_single, hc, if_pos, ite_true, hrec]
        rw [List.take_append_drop]
      · have hlt : (r :: rs).length < ps := by
          have hne : ((r :: rs).take ps).length ≠ ps := by
            intro hx; exact hc (beq_iff_eq.mpr hx)
          rw [List.length_take] at hne
          omega
        have htake : (r :: rs).take ps = r :: rs :=
          List.take_of_length_le (Nat.le_of_lt hlt)
        simp only [drainScan, scan_next_single, hc, if_neg, ite_false, Bool.false_eq_true,
          not_false_eq_true]
        rw [htake]

theorem find?_scanRemove (tbl : ScanTable) (tok : Nat) :
    List.find? (fun p => p.1 == tok) (scanRemove tbl tok) = none := by
  rw [List.find?_eq_none]
  intro x hx
  have hmem := List.mem_filter.mp hx
  simpa using hmem.2

theorem scanLookup_scanInsert (tbl : ScanTable) (tok : Nat) (rows : List KvEntry) :
    scanLookup (scanInsert tbl tok rows) tok = some rows := by
  simp [scanLookup, scanInsert, List.find?_append, find?_scanRemove tbl tok]

/-- C5: pagination is complete and duplicate-free: starting from the
token registered by `scan_start` over an empty scans table, repeatedly
calling `scan_next` (with any positive fixed page size) and
concatenating the pages returns exactly the matching entries of the
scan query; a successful `scan_next` returns a continuation token if
and only if the page it yielded has exactly the page size, and any
returned token is the caller's token; a full page re-registers the
remaining rows under the same token; an exhausted stream yields an
empty batch and no token; and when the remaining rows are exactly one
full page — the exact-multiple case — the call returns that page with
the token and the following call returns an empty batch with no
token. -/
theorem scan_pagination_complete (db : Db) (now : Int) (kid : Nat) (cat : List Nat)
    (tok ps fuel : Nat) (hps : 0 < ps)
    (hfuel : (scanEntries db now kid cat).length < fuel) :
    drainScan ps fuel (scan_start db now kid cat [] tok) tok
      = Except.ok (scanEntries db now kid cat) ∧
    (∀ tbl tbl2 page otok, scan_next ps tbl tok = Except.ok (tbl2, page, otok) →
      ((∃ tok2, otok = some tok2) ↔ page.length = ps) ∧
      (∀ tok2, otok = some tok2 → tok2 = tok)) ∧
    (∀ tbl rows, scanLookup tbl tok = some rows → ps ≤ rows.length →
      scan_next ps tbl tok
        = Except.ok (scanInsert (scanRemove tbl tok) tok (rows.drop ps),
            rows.take ps, some tok)) ∧
    (∀ tbl, scanLookup tbl tok = some [] →
      scan_next ps tbl tok = Except.ok (scanRemove tbl tok, [], none)) ∧
    (∀ tbl rows, scanLookup tbl tok = some rows → rows.length = ps →
      ∃ tbl2, scan_next ps tbl tok = Except.ok (tbl2, rows, some tok) ∧
        scan_next ps tbl2 tok = Except.ok (scanRemove tbl2 tok, [], none)) := by
  have hC : ∀ tbl rows, scanLookup tbl tok = some rows → ps ≤ rows.length →
      scan_next ps tbl tok
        = Except.ok (scanInsert (scanRemove tbl tok) tok (rows.drop ps),
            rows.take ps, some tok) := by
    intro tbl rows hlk hle
    cases rows with
    | nil => simp at hle; omega
    | cons r rs =>
      have hcond : (((r :: rs).take ps).length == ps) = true := by
        rw [beq_iff_eq, List.length_take]
        exact Nat.min_eq_left hle
      simp [scan_next, hlk, hcond]
      simpa using hle
  have hD : ∀ tbl, scanLookup tbl tok = some [] →
      scan_next ps tbl tok = Except.ok (scanRemove tbl tok, [], none) := by
    intro tbl hlk
    simp [scan_next, hlk]
  refine ⟨?_, ?_, hC, hD, ?_⟩
  · have hstart : scan_start db now kid cat [] tok = [(tok, scanEntries db now kid cat)] := by
      simp [scan_start, scanInsert, scanRemove]
    rw [hstart]
    exact drainScan_single ps hps fuel _ tok hfuel
  · intro tbl tbl2 page otok hok
    simp only [scan_next] at hok
    cases hlk : scanLookup tbl tok with
    | none => simp [hlk] at hok
    | some rows =>
      cases rows with
      | nil =>
        simp only [hlk] at hok
        simp only [Except.ok.injEq, Prod.mk.injEq] at hok
        obtain ⟨-, hpage, hotok⟩ := hok
        subst hpage
        subst hotok
        refine ⟨⟨?_, ?_⟩, ?_⟩
        · rintro ⟨tok2, h⟩; cases h
        · intro hlen; simp at hlen; omega
        · intro tok2 h; cases h
      | cons r rs =>
        simp only [hlk] at hok
        split at hok
        · rename_i hcond
          simp only [Except.ok.injEq, Prod.mk.injEq] at hok
          obtain ⟨-, hpage, hotok⟩ := hok
          subst hpage
          subst hotok
          refine ⟨⟨?_, ?_⟩, ?_⟩
          · intro _; exact beq_iff_eq.mp hcond
          · intro _; exact ⟨tok, rfl⟩
          · intro tok2 h; exact (Option.some.inj h).symm
        · rename_i hcond
          simp only [Except.ok.injEq, Prod.mk.injEq] at hok
          obtain ⟨-, hpage, hotok⟩ := hok
          subst hpage
          subst hotok
          refine ⟨⟨?_, ?_⟩, ?_⟩
          · rintro ⟨tok2, h⟩; cases h
          · intro hlen; exact absurd (beq_iff_eq.mpr hlen) hcond
          · intro tok2 h; cases h
  · intro tbl rows hlk hlen
    have hle : ps ≤ rows.length := Nat.le_of_eq hlen.symm
    have htake : rows.take ps = rows := List.take_of_length_le (Nat.le_of_eq hlen)
    have hdrop : rows.drop ps = [] := List.drop_eq_nil_of_le (Nat.le_of_eq hlen)
    refine ⟨scanInsert (scanRemove tbl tok) tok [], ?_, ?_⟩
    · have h1 := hC tbl rows hlk hle
      rw [htake, hdrop] at h1
      exact h1
    · exact hD _ (scanLookup_scanInsert _ tok [])

/-- Witness for C5: five entries scanned with page size two are
returned in full by the paging loop, and a scan whose remaining rows
are exactly one full page returns that page with the token and then an
empty batch with no token. -/
theorem scan_pagination_complete_witness :
    drainScan 2 6
        (scan_start ⟨[⟨1, 1, [1], [1], SqlVal.blob [1], none⟩,
          ⟨2, 1, [1], [2], SqlVal.blob [2], none⟩,
          ⟨3, 1, [1], [3], SqlVal.blob [3], none⟩,
          ⟨4, 1, [1], [4], SqlVal.blob [4], none⟩,
          ⟨5, 1, [1], [5], SqlVal.blob [5], none⟩], [], [], 6⟩ 0 1 [1] [] 42) 42
      = Except.ok (scanEntries ⟨[⟨1, 1, [1], [1], SqlVal.blob [1], none⟩,
          ⟨2, 1, [1], [2], SqlVal.blob [2], none⟩,
          ⟨3, 1, [1], [3], SqlVal.blob [3], none⟩,
          ⟨4, 1, [1], [4], SqlVal.blob [4], none⟩,
          ⟨5, 1, [1], [5], SqlVal.blob [5], none⟩], [], [], 6⟩ 0 1 [1]) ∧
    ∃ tbl2, scan_next 2 [(42, [⟨[1], [1], SqlVal.blob [1]⟩, ⟨[1], [2], SqlVal.blob [2]⟩])] 42
        = Except.ok (tbl2, [⟨[1], [1], SqlVal.blob [1]⟩, ⟨[1], [2], SqlVal.blob [2]⟩], some 42) ∧
      scan_next 2 tbl2 42 = Except.ok (scanRemove tbl2 42, [], none) :=
  ⟨(scan_pagination_complete ⟨[⟨1, 1, [1], [1], SqlVal.blob [1], none⟩,
      ⟨2, 1, [1], [2], SqlVal.blob [2], none⟩,
      ⟨3, 1, [1], [3], SqlVal.blob [3], none⟩,
      ⟨4, 1, [1], [4], SqlVal.blob [4], none⟩,
      ⟨5, 1, [1], [5], SqlVal.blob [5], none⟩], [], [], 6⟩ 0 1 [1] 42 2 6
    (by decide) (by decide)).1,
   (scan_pagination_complete ⟨[⟨1, 1, [1], [1], SqlVal.blob [1], none⟩,
      ⟨2, 1, [1], [2], SqlVal.blob [2], none⟩,
      ⟨3, 1, [1], [3], SqlVal.blob [3], none⟩,
      ⟨4, 1, [1], [4], SqlVal.blob [4], none⟩,
      ⟨5, 1, [1], [5], SqlVal.blob [5], none⟩], [], [], 6⟩ 0 1 [1] 42 2 6
    (by decide) (by decide)).2.2.2.2
    [(42, [⟨[1], [1], SqlVal.blob [1]⟩, ⟨[1], [2], SqlVal.blob [2]⟩])]
    [⟨[1], [1], SqlVal.blob [1]⟩, ⟨[1], [2], SqlVal.blob [2]⟩] rfl rfl⟩

theorem lockUpsert_live (locks : List LockRow) (hash : Int) (t : Int) (r : LockRow)
    (hf : List.find? (fun l => l.id == hash) locks = some r) (h : ¬ r.expiry ≤ t) :
    lockUpsert locks hash t = (locks, 0) := by
  simp [lockUpsert, hf, h]

theorem lockLoop_deadline_not_acquired (hash d : Int) (locks : List LockRow) (r : LockRow)
    (hf : List.find? (fun l => l.id == hash) locks = some r)
    (hexp : d + lockInterval ≤ r.expiry) :
    ∀ (fuel : Nat) (t : Int), t < d + lockInterval →
      d + lockInterval ≤ t + lockInterval * (fuel : Int) →
      lockLoop hash (some d) fuel locks t = LockResult.notAcquired := by
  intro fuel
  induction fuel with
  | zero =>
    intro t h1 h2
    simp only [lockInterval] at h1 h2
    omega
  | succ f ih =>
    intro t h1 h2
    have hnotexp : ¬ r.expiry ≤ t := by simp only [lockInterval] at h1 hexp; omega
    have hup := lockUpsert_live locks hash t r hf hnotexp
    by_cases hd : d ≤ t
    · simp [lockLoop, hup, hd]
    · have hrec := ih (t + lockInterval)
        (by simp only [lockInterval] at h1 hd ⊢; omega)
        (by simp only [lockInterval] at h2 ⊢; push_cast at h2 ⊢; omega)
      simp [lockLoop, hup, hd, hrec]

/-- C7: with an `acquire_timeout_ms`, `create_lock` computes its
deadline once up front as the start instant plus the timeout minus one
polling interval, and when every acquisition attempt up to that deadline
fails (the held lease expires only later), the call returns the
successful "not acquired" result rather than an error. -/
theorem create_lock_deadline_not_acquired (hash ms t0 : Int) (fuel : Nat)
    (locks : List LockRow) (r : LockRow)
    (hf : List.find? (fun l => l.id == hash) locks = some r)
    (hexp : (t0 + max 0 (ms - lockInterval)) + lockInterval ≤ r.expiry)
    (hfuel : (t0 + max 0 (ms - lockInterval)) + lockInterval
      ≤ t0 + lockInterval * (fuel : Int)) :
    create_lock hash (some ms) fuel locks t0 = LockResult.notAcquired := by
  have hd : t0 < (t0 + max 0 (ms - lockInterval)) + lockInterval := by
    have hmax := le_max_left 0 (ms - lockInterval)
    simp only [lockInterval] at hmax ⊢
    omega
  have hloop := lockLoop_deadline_not_acquired hash (t0 + max 0 (ms - lockInterval))
    locks r hf hexp fuel t0 hd hfuel
  simpa [create_lock] using hloop

/-- Witness for C7: a lock held until time 10000, requested at time 0
with a 50 ms acquisition timeout, yields the "not acquired" result after
polling up to the deadline 40. -/
theorem create_lock_deadline_not_acquired_witness :
    create_lock 7 (some 50) 5 [⟨7, 10000⟩] 0 = LockResult.notAcquired :=
  create_lock_deadline_not_acquired 7 50 0 5 [⟨7, 10000⟩] ⟨7, 10000⟩ rfl
    (by decide) (by decide)

end Askar
